import Mathlib

/-!
Verification of `src/util/pid_watcher.py` (the process-liveness watch service).

The service keeps two pieces of shared state: the registry `last_seen`
(a Python dict mapping pid to the timestamp of its most recent announcement)
and the deduplication set `dead_notified`.  The reactor loop feeds bytes read
from a FIFO into `parse_lines`, which extracts newline-terminated records,
strips them, parses them with `int(...)`, and for positive pids stores the
current time and discards the pid from `dead_notified`.  A background thread
(`periodic_check`) periodically scans a snapshot of the registry, probes stale
pids with `os.kill(pid, 0)` (`pid_alive`), and on a confirmed death adds the
pid to `dead_notified` and calls `send_slack`.

The embedding below translates these functions into pure Lean definitions.
Python dicts are insertion-ordered association lists, sets are `Finset Int`,
timestamps are `Int`, and the outcome spaces of the OS calls (`os.kill`,
`requests.post`) are explicit parameters.  Exceptions that a function does not
catch are surfaced as `none` / `Except.error` results of the embedding.
-/

namespace PidWatch

/-- Outcome of the OS probe `os.kill(pid, 0)`.  The call either succeeds, or
raises `ProcessLookupError` (ESRCH), `PermissionError` (EPERM), or some other
exception (for example `OverflowError` when the pid does not fit in a C
integer, which is reachable because announcements are parsed with Python's
unbounded `int`). -/
inductive ProbeResult where
  | success
  | processLookupError
  | permissionError
  | otherError
deriving DecidableEq

/-- The module-level mutable state of pid_watcher.py: the `last_seen` dict
(`Dict[int, float]`, here an insertion-ordered association list over `Int`
timestamps) and the `dead_notified` set (`Set[int]`). -/
structure WatchState where
  last_seen : List (Int × Int)
  dead_notified : Finset Int
deriving DecidableEq

/-- Both structures start empty (`last_seen = {}`, `dead_notified = set()`). -/
def WatchState.empty : WatchState := ⟨[], ∅⟩

/-- Python dict lookup on the association-list representation. -/
def lookupAssoc : List (Int × Int) → Int → Option Int
  | [], _ => none
  | (k, v) :: rest, pid => if k = pid then some v else lookupAssoc rest pid

/-- Python dict assignment `d[k] = v`: replaces the value in place when the
key is present, otherwise appends the new binding (insertion order). -/
def updateAssoc : List (Int × Int) → Int → Int → List (Int × Int)
  | [], k, v => [(k, v)]
  | (k', v') :: rest, k, v =>
    if k' = k then (k, v) :: rest else (k', v') :: updateAssoc rest k v

/-- The key list of an association list (Python `d.keys()`). -/
def keys (m : List (Int × Int)) : List Int := m.map Prod.fst

/-- `pid_alive(pid)`: `os.kill(pid, 0)` wrapped in a `try` that catches
exactly `ProcessLookupError` (return `False`) and `PermissionError` (return
`True`); a successful call returns `True`.  Any other exception is not
caught, so the embedding returns `none` (the exception propagates to the
caller). -/
def pid_alive : ProbeResult → Option Bool
  | ProbeResult.success => some true
  | ProbeResult.processLookupError => some false
  | ProbeResult.permissionError => some true
  | ProbeResult.otherError => none

/-- The `pid > 0` branch of `parse_lines`: `last_seen[pid] = time.time()`
followed by `dead_notified.discard(pid)` (the source guards the discard with
`if pid in dead_notified`, which is equivalent to an unconditional discard).
This is the registry operation the spec calls `touch(identifier, now)`. -/
def touch (now pid : Int) (s : WatchState) : WatchState :=
  { last_seen := updateAssoc s.last_seen pid now
    dead_notified := s.dead_notified.erase pid }

/-- Membership test in the dead-notified set (`pid in dead_notified`). -/
def is_dead_notified (s : WatchState) (pid : Int) : Bool :=
  decide (pid ∈ s.dead_notified)

/-- The ASCII whitespace bytes stripped by Python's `bytes.strip()`:
space, tab, newline, carriage return, vertical tab, form feed. -/
def isPySpace (c : Char) : Bool :=
  c == ' ' || c == '\t' || c == '\n' || c == '\r' ||
    c == Char.ofNat 11 || c == Char.ofNat 12

/-- `bytes.strip()`: drop leading and trailing ASCII whitespace. -/
def strip (l : List Char) : List Char :=
  ((l.dropWhile isPySpace).reverse.dropWhile isPySpace).reverse

def isDigitChar (c : Char) : Bool := '0' ≤ c && c ≤ '9'

def digitVal (c : Char) : Nat := c.toNat - 48

/-- Tail of Python's decimal digit grammar `digit (["_"] digit)*`:
after the first digit, underscores are allowed only between digits. -/
def parseDigitTail : List Char → Nat → Option Nat
  | [], acc => some acc
  | '_' :: c :: rest, acc =>
    if isDigitChar c then parseDigitTail rest (10 * acc + digitVal c) else none
  | c :: rest, acc =>
    if isDigitChar c then parseDigitTail rest (10 * acc + digitVal c) else none

/-- A nonempty digit run (with underscore grouping) and its value. -/
def parseDigits : List Char → Option Nat
  | c :: rest => if isDigitChar c then parseDigitTail rest (digitVal c) else none
  | [] => none

/-- Python `int(line)` on an already-stripped byte string: an optional sign
followed by a nonempty underscore-grouped digit run; anything else raises
`ValueError` (embedded as `none`). -/
def parsePyInt : List Char → Option Int
  | '+' :: rest => (parseDigits rest).map (fun n => (n : Int))
  | '-' :: rest => (parseDigits rest).map (fun n => -(n : Int))
  | l => (parseDigits l).map (fun n => (n : Int))

/-- The per-record body of the `parse_lines` loop after the record has been
extracted and stripped: skip empty records, `int(line)` with the
`ValueError` caught and logged, and store only pids with `pid > 0`. -/
def processLine (now : Int) (line : List Char) (s : WatchState) : WatchState :=
  if line = [] then s
  else
    match parsePyInt line with
    | some pid => if 0 < pid then touch now pid s else s
    | none => s

/-- `buf.find(b'\n')` combined with the slicing `buf[:nl]` / `del buf[:nl+1]`:
splits the buffer at the first newline, returning the record before it and
the remainder after it, or `none` when no newline is present. -/
def splitFirstNL : List Char → Option (List Char × List Char)
  | [] => none
  | c :: rest =>
    if c = '\n' then some ([], rest)
    else
      match splitFirstNL rest with
      | none => none
      | some (l, r) => some (c :: l, r)

/-- The `while True` loop of `parse_lines`, with an explicit iteration bound.
Each iteration removes at least one byte from the buffer, so any fuel larger
than the buffer length makes the bound unreachable.  Besides the final buffer
and state, the embedding also returns the list of stripped records extracted
by the loop, in order. -/
def parse_loop (now : Int) : Nat → List Char → WatchState →
    List Char × WatchState × List (List Char)
  | 0, buf, s => (buf, s, [])
  | fuel + 1, buf, s =>
    match splitFirstNL buf with
    | none => (buf, s, [])
    | some (line, rest) =>
      let stripped := strip line
      let r := parse_loop now fuel rest (processLine now stripped s)
      (r.1, r.2.1, stripped :: r.2.2)

/-- `parse_lines(buf)`: run the loop with sufficient fuel.  `time.time()` is
modelled by the parameter `now`, used for every record of the call. -/
def parse_lines (now : Int) (buf : List Char) (s : WatchState) :
    List Char × WatchState × List (List Char) :=
  parse_loop now (buf.length + 1) buf s

/-- One reactor-loop feed step: `buf.extend(chunk); parse_lines(buf)`.
The first component of `st` is the retained buffer, the second the state. -/
def feed (now : Int) (st : List Char × WatchState) (chunk : List Char) :
    List Char × WatchState × List (List Char) :=
  parse_lines now (st.1 ++ chunk) st.2

/-- What `send_slack` prints (its only observable effect besides the POST). -/
inductive SlackLog where
  | warnNotSet
  | sent
  | errorStatus (code : Nat)
  | errorExn
deriving DecidableEq

/-- `requests.post(...)` modelled by its outcome: `some code` is a response
with that status code, `none` is a raised exception. -/
def requests_post (out : Option Nat) : Except String Nat :=
  match out with
  | some code => Except.ok code
  | none => Except.error "exception"

/-- `send_slack(text)`: warn when the webhook URL is unset; otherwise POST,
log an error on a status `>= 300`, and catch every exception of the POST
(`except Exception`), logging it instead of re-raising.  The function always
returns normally, which the embedding reflects by returning a plain
`SlackLog` rather than an `Except`. -/
def send_slack (webhookSet : Bool) (out : Option Nat) : SlackLog :=
  if webhookSet = false then SlackLog.warnNotSet
  else
    match requests_post out with
    | Except.ok code =>
        if 300 ≤ code then SlackLog.errorStatus code else SlackLog.sent
    | Except.error _ => SlackLog.errorExn

/-- The body of the `for pid, ts in to_check` loop of `periodic_check`:
when the entry is stale (`now - ts > PID_STALE_SEC`) and not yet
dead-notified, probe it; a dead pid is added to `dead_notified` and alerted
through `send_slack`.  The accumulator carries the state, the pids alerted so
far, and the `send_slack` logs.  `none` means an uncaught exception escaped
the loop body (the probe raised something other than the two caught
exceptions), killing the checker thread. -/
def checkOne (stale now : Int) (probe : Int → ProbeResult) (wh : Bool)
    (slack : Int → Option Nat) (acc : WatchState × List Int × List SlackLog)
    (e : Int × Int) : Option (WatchState × List Int × List SlackLog) :=
  if now - e.2 > stale ∧ e.1 ∉ acc.1.dead_notified then
    match pid_alive (probe e.1) with
    | none => none
    | some true => some acc
    | some false =>
        some ({ acc.1 with dead_notified := insert e.1 acc.1.dead_notified },
              acc.2.1 ++ [e.1],
              acc.2.2 ++ [send_slack wh (slack e.1)])
  else some acc

/-- The `for` loop of `periodic_check` over the snapshot list. -/
def runCheck (stale now : Int) (probe : Int → ProbeResult) (wh : Bool)
    (slack : Int → Option Nat) :
    List (Int × Int) → WatchState × List Int × List SlackLog →
    Option (WatchState × List Int × List SlackLog)
  | [], acc => some acc
  | e :: rest, acc =>
    match checkOne stale now probe wh slack acc e with
    | none => none
    | some acc' => runCheck stale now probe wh slack rest acc'

/-- One cycle of `periodic_check`: `now = time.time()`,
`to_check = list(last_seen.items())`, then the loop over the snapshot.
`probe` gives the outcome of `os.kill(pid, 0)` for each pid this cycle and
`slack` the delivery outcome of the webhook POST for each alerted pid. -/
def periodic_check_cycle (stale now : Int) (probe : Int → ProbeResult)
    (wh : Bool) (slack : Int → Option Nat) (s : WatchState) :
    Option (WatchState × List Int × List SlackLog) :=
  runCheck stale now probe wh slack s.last_seen (s, [], [])

/-- The environment of one checker cycle: the wall-clock time at the start of
the cycle, the probe outcomes, and the webhook delivery outcomes. -/
structure CycleEnv where
  now : Int
  probe : Int → ProbeResult
  slack : Int → Option Nat

/-- A run of successive checker cycles, accumulating alerts and logs. -/
def run_cycles (stale : Int) (wh : Bool) :
    List CycleEnv → WatchState × List Int × List SlackLog →
    Option (WatchState × List Int × List SlackLog)
  | [], acc => some acc
  | env :: rest, acc =>
    match periodic_check_cycle stale env.now env.probe wh env.slack acc.1 with
    | none => none
    | some (s', al, lg) =>
        run_cycles stale wh rest (s', acc.2.1 ++ al, acc.2.2 ++ lg)

/-- A finite sequence of `touch` calls, each entry `(pid, t)`. -/
def applyTouches (tl : List (Int × Int)) (s : WatchState) : WatchState :=
  tl.foldl (fun s e => touch e.2 e.1 s) s

/-- Specification-side definition (last-write-wins): the `t` of the most
recent touch of `pid` in the sequence, if any. -/
def lastWriteWins : List (Int × Int) → Int → Option Int
  | [], _ => none
  | e :: rest, pid =>
    match lastWriteWins rest pid with
    | some t => some t
    | none => if e.1 = pid then some e.2 else none

/-- The dead-notified set only mentions registered identifiers. -/
def deadSubsetKeys (s : WatchState) : Prop :=
  ∀ pid ∈ s.dead_notified, pid ∈ keys s.last_seen

/-- The file-descriptor side of `main`: which read/write descriptors of the
FIFO are currently open, which read descriptor is registered with epoll, and
the values of the `rfd` / `wfd` variables.  Descriptors are drawn from a
fresh-name allocator `nextFd`. -/
structure FdState where
  nextFd : Nat
  openRead : Finset Nat
  openWrite : Finset Nat
  registered : Finset Nat
  rfd : Nat
  wfd : Nat
deriving DecidableEq

/-- `open_fifo_nb(path)`: opens a non-blocking read descriptor and a dummy
non-blocking write descriptor (held to keep the read end from seeing EOF)
and returns both, together with the advanced allocator. -/
def open_fifo_nb (nextFd : Nat) : (Nat × Nat) × Nat :=
  ((nextFd, nextFd + 1), nextFd + 2)

/-- The startup of `main`: `rfd, wfd = open_fifo_nb(FIFO_PATH)` followed by
`ep.register(rfd, ...)`. -/
def initFdState : FdState :=
  let p := open_fifo_nb 0
  { nextFd := p.2
    openRead := {p.1.1}
    openWrite := {p.1.2}
    registered := {p.1.1}
    rfd := p.1.1
    wfd := p.1.2 }

/-- The EPOLLHUP/EPOLLERR branch of the reactor loop:
`ep.unregister(rfd)`, `os.close(rfd)`, `rfd, _w2 = open_fifo_nb(FIFO_PATH)`,
`ep.register(rfd, ...)`.  The old `wfd` is kept, and `_w2` — the second
write descriptor opened by `open_fifo_nb` — is discarded without being
closed, so it stays in `openWrite`. -/
def reopenStep (fs : FdState) : FdState :=
  let fs1 : FdState :=
    { fs with registered := fs.registered.erase fs.rfd
              openRead := fs.openRead.erase fs.rfd }
  let p := open_fifo_nb fs1.nextFd
  { nextFd := p.2
    openRead := insert p.1.1 fs1.openRead
    openWrite := insert p.1.2 fs1.openWrite
    registered := insert p.1.1 fs1.registered
    rfd := p.1.1
    wfd := fs.wfd }

/-! ## Association-list registry lemmas -/

theorem lookupAssoc_updateAssoc_self (m : List (Int × Int)) (k v : Int) :
    lookupAssoc (updateAssoc m k v) k = some v := by
  induction m with
  | nil => simp [updateAssoc, lookupAssoc]
  | cons e rest ih =>
    obtain ⟨k', v'⟩ := e
    by_cases h : k' = k
    · simp [updateAssoc, h, lookupAssoc]
    · simp [updateAssoc, h, lookupAssoc, ih]

theorem lookupAssoc_updateAssoc_ne (m : List (Int × Int)) (k v a : Int)
    (h : a ≠ k) : lookupAssoc (updateAssoc m k v) a = lookupAssoc m a := by
  induction m with
  | nil => simp [updateAssoc, lookupAssoc, Ne.symm h]
  | cons e rest ih =>
    obtain ⟨k', v'⟩ := e
    by_cases hk : k' = k
    · subst hk
      simp [updateAssoc, lookupAssoc, Ne.symm h]
    · by_cases ha : k' = a
      · subst ha
        simp [updateAssoc, hk, lookupAssoc, h]
      · simp [updateAssoc, hk, lookupAssoc, ha, ih]

theorem mem_keys_updateAssoc (m : List (Int × Int)) (k v a : Int) :
    a ∈ keys (updateAssoc m k v) ↔ a = k ∨ a ∈ keys m := by
  induction m with
  | nil => simp [updateAssoc, keys]
  | cons e rest ih =>
    obtain ⟨k', v'⟩ := e
    by_cases hk : k' = k
    · subst hk
      simp [updateAssoc, keys]
    · simp [updateAssoc, hk, keys] at ih ⊢
      tauto

theorem nodup_keys_updateAssoc (m : List (Int × Int)) (k v : Int)
    (h : (keys m).Nodup) : (keys (updateAssoc m k v)).Nodup := by
  induction m with
  | nil => simp [updateAssoc, keys]
  | cons e rest ih =>
    obtain ⟨k', v'⟩ := e
    have h1 : k' ∉ keys rest := (List.nodup_cons.1 h).1
    have h2 : (keys rest).Nodup := (List.nodup_cons.1 h).2
    by_cases hk : k' = k
    · subst hk
      have hu : updateAssoc ((k', v') :: rest) k' v = (k', v) :: rest := by
        simp [updateAssoc]
      rw [hu]
      exact List.nodup_cons.2 ⟨h1, h2⟩
    · have hmem : k' ∉ keys (updateAssoc rest k v) := by
        intro hmem
        rcases (mem_keys_updateAssoc rest k v k').1 hmem with h3 | h3
        · exact hk h3
        · exact h1 h3
      have hu : updateAssoc ((k', v') :: rest) k v =
          (k', v') :: updateAssoc rest k v := by
        simp [updateAssoc, hk]
      rw [hu]
      exact List.nodup_cons.2 ⟨hmem, ih h2⟩

theorem mem_keys_touch (now pid : Int) (s : WatchState) (a : Int) :
    a ∈ keys (touch now pid s).last_seen ↔ a = pid ∨ a ∈ keys s.last_seen :=
  mem_keys_updateAssoc s.last_seen pid now a

/-! ## Line-assembler lemmas -/

theorem splitFirstNL_length :
    ∀ (buf l r : List Char), splitFirstNL buf = some (l, r) →
      r.length < buf.length := by
  intro buf
  induction buf with
  | nil => intro l r h; simp [splitFirstNL] at h
  | cons c rest ih =>
    intro l r h
    by_cases hc : c = '\n'
    · simp [splitFirstNL, hc] at h
      obtain ⟨-, h2⟩ := h
      subst h2
      simp
    · simp only [splitFirstNL, if_neg hc] at h
      cases hs : splitFirstNL rest with
      | none => rw [hs] at h; simp at h
      | some p =>
        obtain ⟨p1, p2⟩ := p
        rw [hs] at h
        simp only [Option.some.injEq, Prod.mk.injEq] at h
        obtain ⟨h1, h2⟩ := h
        cases h2
        have hlt := ih p1 _ hs
        simp only [List.length_cons]
        omega

theorem splitFirstNL_eq_none :
    ∀ (buf : List Char), '\n' ∉ buf → splitFirstNL buf = none := by
  intro buf
  induction buf with
  | nil => intro _; rfl
  | cons c rest ih =>
    intro h
    have hc : c ≠ '\n' := by
      intro hh
      exact h (hh ▸ List.mem_cons_self c rest)
    have hr : '\n' ∉ rest := fun hh => h (List.mem_cons_of_mem c hh)
    simp [splitFirstNL, hc, ih hr]

theorem splitFirstNL_append (bad rest : List Char) (h : '\n' ∉ bad) :
    splitFirstNL (bad ++ '\n' :: rest) = some (bad, rest) := by
  induction bad with
  | nil => simp [splitFirstNL]
  | cons c tl ih =>
    have hc : c ≠ '\n' := by
      intro hh
      exact h (hh ▸ List.mem_cons_self c tl)
    have ht : '\n' ∉ tl := fun hh => h (List.mem_cons_of_mem c hh)
    simp [splitFirstNL, hc, ih ht]

theorem parse_loop_fuel_eq (now : Int) :
    ∀ (f1 f2 : Nat) (buf : List Char) (s : WatchState),
      buf.length < f1 → buf.length < f2 →
      parse_loop now f1 buf s = parse_loop now f2 buf s := by
  intro f1
  induction f1 with
  | zero => intro f2 buf s h1 _; exact absurd h1 (by omega)
  | succ n ih =>
    intro f2 buf s h1 h2
    cases f2 with
    | zero => exact absurd h2 (by omega)
    | succ m =>
      cases hs : splitFirstNL buf with
      | none => simp only [parse_loop, hs]
      | some p =>
        obtain ⟨line, rest⟩ := p
        have hlen := splitFirstNL_length buf line rest hs
        have heq := ih m rest (processLine now (strip line) s)
          (by omega) (by omega)
        simp only [parse_loop, hs, heq]

theorem parse_lines_eq_none (now : Int) (buf : List Char) (s : WatchState)
    (h : splitFirstNL buf = none) : parse_lines now buf s = (buf, s, []) := by
  simp only [parse_lines, parse_loop, h]

theorem parse_lines_eq_cons (now : Int) (buf line rest : List Char)
    (s : WatchState) (h : splitFirstNL buf = some (line, rest)) :
    parse_lines now buf s =
      ((parse_lines now rest (processLine now (strip line) s)).1,
       (parse_lines now rest (processLine now (strip line) s)).2.1,
       strip line :: (parse_lines now rest (processLine now (strip line) s)).2.2) := by
  have hlen := splitFirstNL_length buf line rest h
  have heq := parse_loop_fuel_eq now buf.length (rest.length + 1) rest
    (processLine now (strip line) s) (by omega) (by omega)
  simp only [parse_lines, parse_loop, h, heq]

/-! ## Touch-sequence lemmas -/

theorem lookup_applyTouches :
    ∀ (tl : List (Int × Int)) (s : WatchState) (pid : Int),
      lookupAssoc (applyTouches tl s).last_seen pid =
        match lastWriteWins tl pid with
        | some t => some t
        | none => lookupAssoc s.last_seen pid := by
  intro tl
  induction tl with
  | nil => intro s pid; rfl
  | cons e tl ih =>
    intro s pid
    have h1 : applyTouches (e :: tl) s = applyTouches tl (touch e.2 e.1 s) := rfl
    rw [h1, ih]
    cases hlw : lastWriteWins tl pid with
    | some t => simp [lastWriteWins, hlw]
    | none =>
      simp only [lastWriteWins, hlw]
      by_cases he : e.1 = pid
      · subst he
        simp [touch, lookupAssoc_updateAssoc_self]
      · simp [touch, he, lookupAssoc_updateAssoc_ne _ _ _ _ (Ne.symm he)]

theorem mem_keys_applyTouches :
    ∀ (tl : List (Int × Int)) (s : WatchState) (a : Int),
      a ∈ keys (applyTouches tl s).last_seen ↔
        a ∈ tl.map Prod.fst ∨ a ∈ keys s.last_seen := by
  intro tl
  induction tl with
  | nil => intro s a; simp [applyTouches]
  | cons e tl ih =>
    intro s a
    have h1 : applyTouches (e :: tl) s = applyTouches tl (touch e.2 e.1 s) := rfl
    rw [h1, ih, mem_keys_touch, List.map_cons]
    simp
    tauto

theorem nodup_keys_applyTouches :
    ∀ (tl : List (Int × Int)) (s : WatchState),
      (keys s.last_seen).Nodup → (keys (applyTouches tl s).last_seen).Nodup := by
  intro tl
  induction tl with
  | nil => intro s h; exact h
  | cons e tl ih =>
    intro s h
    exact ih (touch e.2 e.1 s) (nodup_keys_updateAssoc s.last_seen e.1 e.2 h)

theorem length_applyTouches_empty (tl : List (Int × Int)) :
    (applyTouches tl WatchState.empty).last_seen.length =
      (tl.map Prod.fst).dedup.length := by
  have hnd : (keys (applyTouches tl WatchState.empty).last_seen).Nodup :=
    nodup_keys_applyTouches tl _ (by simp [WatchState.empty, keys])
  have hmem : ∀ a, a ∈ keys (applyTouches tl WatchState.empty).last_seen ↔
      a ∈ (tl.map Prod.fst).dedup := by
    intro a
    rw [mem_keys_applyTouches, List.mem_dedup]
    simp [WatchState.empty, keys]
  have hperm : List.Perm (keys (applyTouches tl WatchState.empty).last_seen)
      ((tl.map Prod.fst).dedup) :=
    (List.perm_ext_iff_of_nodup hnd (List.nodup_dedup _)).2 hmem
  have hlen := hperm.length_eq
  simpa [keys] using hlen

/-! ## Checker-loop lemmas -/

theorem checkOne_cases (stale now : Int) (probe : Int → ProbeResult) (wh : Bool)
    (slack : Int → Option Nat) (acc : WatchState × List Int × List SlackLog)
    (e : Int × Int) :
    checkOne stale now probe wh slack acc e = none ∨
    checkOne stale now probe wh slack acc e = some acc ∨
    (e.1 ∉ acc.1.dead_notified ∧ probe e.1 = ProbeResult.processLookupError ∧
      checkOne stale now probe wh slack acc e =
        some ({ acc.1 with dead_notified := insert e.1 acc.1.dead_notified },
              acc.2.1 ++ [e.1], acc.2.2 ++ [send_slack wh (slack e.1)])) := by
  by_cases hc : now - e.2 > stale ∧ e.1 ∉ acc.1.dead_notified
  · cases hp : probe e.1 with
    | success => right; left; simp [checkOne, hc, hp, pid_alive]
    | processLookupError =>
      right; right
      exact ⟨hc.2, rfl, by simp [checkOne, hc, hp, pid_alive]⟩
    | permissionError => right; left; simp [checkOne, hc, hp, pid_alive]
    | otherError => left; simp [checkOne, hc, hp, pid_alive]
  · right; left; simp [checkOne, hc]

theorem runCheck_facts (stale now : Int) (probe : Int → ProbeResult) (wh : Bool)
    (slack : Int → Option Nat) :
    ∀ (l : List (Int × Int)) (acc r : WatchState × List Int × List SlackLog),
      runCheck stale now probe wh slack l acc = some r →
      r.1.last_seen = acc.1.last_seen ∧
      acc.1.dead_notified ⊆ r.1.dead_notified ∧
      (∀ q ∈ r.1.dead_notified, q ∈ acc.1.dead_notified ∨ q ∈ l.map Prod.fst) ∧
      ∃ new, r.2.1 = acc.2.1 ++ new ∧
        ∀ q ∈ new, q ∉ acc.1.dead_notified ∧ q ∈ r.1.dead_notified ∧
          probe q = ProbeResult.processLookupError ∧ q ∈ l.map Prod.fst := by
  intro l
  induction l with
  | nil =>
    intro acc r h
    simp [runCheck] at h
    subst h
    exact ⟨rfl, Finset.Subset.refl _, fun q hq => Or.inl hq, [], by simp,
      fun q hq => absurd hq (List.not_mem_nil q)⟩
  | cons e rest ih =>
    intro acc r h
    have hhead : e.1 ∈ (e :: rest).map Prod.fst := by
      rw [List.map_cons]; exact List.mem_cons_self _ _
    have hsub : ∀ q : Int, q ∈ rest.map Prod.fst → q ∈ (e :: rest).map Prod.fst := by
      intro q hq
      rw [List.map_cons]; exact List.mem_cons_of_mem _ hq
    rcases checkOne_cases stale now probe wh slack acc e with hc | hc | ⟨hnd, hp, hc⟩
    · simp [runCheck, hc] at h
    · simp only [runCheck, hc] at h
      obtain ⟨h1, h2, h3, new, h4, h5⟩ := ih acc r h
      exact ⟨h1, h2, fun q hq => (h3 q hq).imp id (hsub q), new, h4,
        fun q hq => ⟨(h5 q hq).1, (h5 q hq).2.1, (h5 q hq).2.2.1,
          hsub q (h5 q hq).2.2.2⟩⟩
    · simp only [runCheck, hc] at h
      obtain ⟨h1, h2, h3, new', h4, h5⟩ := ih _ r h
      refine ⟨h1, Finset.Subset.trans (Finset.subset_insert _ _) h2, ?_,
        e.1 :: new', ?_, ?_⟩
      · intro q hq
        rcases h3 q hq with hm | hm
        · rcases Finset.mem_insert.1 hm with he | hm2
          · exact Or.inr (he ▸ hhead)
          · exact Or.inl hm2
        · exact Or.inr (hsub q hm)
      · rw [h4]
        simp
      · intro q hq
        rcases List.mem_cons.1 hq with he | hq2
        · subst he
          exact ⟨hnd, h2 (Finset.mem_insert_self _ _), hp, hhead⟩
        · obtain ⟨hq1, hq3, hq4, hq5⟩ := h5 q hq2
          exact ⟨fun hmem => hq1 (Finset.mem_insert_of_mem hmem), hq3, hq4,
            hsub q hq5⟩

theorem runCheck_slack_indep (stale now : Int) (probe : Int → ProbeResult)
    (wh : Bool) (slack1 slack2 : Int → Option Nat) :
    ∀ (l : List (Int × Int)) (st : WatchState) (al : List Int)
      (lg1 lg2 : List SlackLog),
      (runCheck stale now probe wh slack1 l (st, al, lg1)).map
          (fun r => (r.1, r.2.1)) =
      (runCheck stale now probe wh slack2 l (st, al, lg2)).map
          (fun r => (r.1, r.2.1)) := by
  intro l
  induction l with
  | nil => intro st al lg1 lg2; rfl
  | cons e rest ih =>
    intro st al lg1 lg2
    by_cases hc : now - e.2 > stale ∧ e.1 ∉ st.dead_notified
    · cases hp : probe e.1 with
      | success =>
        simp only [runCheck, checkOne, if_pos hc, hp, pid_alive]
        exact ih st al lg1 lg2
      | processLookupError =>
        simp only [runCheck, checkOne, if_pos hc, hp, pid_alive]
        exact ih _ _ _ _
      | permissionError =>
        simp only [runCheck, checkOne, if_pos hc, hp, pid_alive]
        exact ih st al lg1 lg2
      | otherError =>
        simp only [runCheck, checkOne, if_pos hc, hp, pid_alive]
    · simp only [runCheck, checkOne, if_neg hc]
      exact ih st al lg1 lg2

theorem run_cycles_dead_preserved (stale : Int) (wh : Bool) (pid : Int) :
    ∀ (envs : List CycleEnv) (s : WatchState) (al0 : List Int)
      (lg0 : List SlackLog) (r : WatchState × List Int × List SlackLog),
      pid ∈ s.dead_notified → pid ∉ al0 →
      run_cycles stale wh envs (s, al0, lg0) = some r →
      pid ∉ r.2.1 ∧ pid ∈ r.1.dead_notified := by
  intro envs
  induction envs with
  | nil =>
    intro s al0 lg0 r hd hal h
    simp [run_cycles] at h
    subst h
    exact ⟨hal, hd⟩
  | cons env rest ih =>
    intro s al0 lg0 r hd hal h
    cases hcyc : periodic_check_cycle stale env.now env.probe wh env.slack s with
    | none => simp [run_cycles, hcyc] at h
    | some p =>
      obtain ⟨s1, al1, lg1⟩ := p
      simp only [run_cycles, hcyc] at h
      obtain ⟨-, h2, -, new, h4, h5⟩ :=
        runCheck_facts stale env.now env.probe wh env.slack s.last_seen
          (s, [], []) (s1, al1, lg1) hcyc
      have hdead1 : pid ∈ s1.dead_notified := h2 hd
      have halnew : pid ∉ al1 := by
        intro hmem
        have h4' : al1 = new := by simpa using h4
        rw [h4'] at hmem
        exact (h5 pid hmem).1 hd
      have hal' : pid ∉ al0 ++ al1 := by
        intro hmem
        rcases List.mem_append.1 hmem with hm | hm
        · exact hal hm
        · exact halnew hm
      exact ih s1 (al0 ++ al1) (lg0 ++ lg1) r hdead1 hal' h

/-! ## File-descriptor lemmas -/

theorem fd_iterate (n : Nat) :
    reopenStep^[n] initFdState =
      { nextFd := 2 * n + 2
        openRead := {2 * n}
        openWrite := (Finset.range (n + 1)).image (fun k => 2 * k + 1)
        registered := {2 * n}
        rfd := 2 * n
        wfd := 1 } := by
  induction n with
  | zero => decide
  | succ n ih =>
    rw [Function.iterate_succ_apply', ih]
    have h3 : (Finset.range (n + 1 + 1)).image (fun k => 2 * k + 1) =
        insert (2 * n + 2 + 1) ((Finset.range (n + 1)).image (fun k => 2 * k + 1)) := by
      ext x
      simp only [Finset.mem_insert, Finset.mem_image, Finset.mem_range]
      constructor
      · rintro ⟨k, hk, rfl⟩
        by_cases hkn : k = n + 1
        · subst hkn; left; ring
        · right; exact ⟨k, by omega, rfl⟩
      · rintro (rfl | ⟨k, hk, rfl⟩)
        · exact ⟨n + 1, by omega, by ring⟩
        · exact ⟨k, by omega, rfl⟩
    have e1 : (2 : Nat) * (n + 1) = 2 * n + 2 := by ring
    have e2 : (2 : Nat) * (n + 1) + 2 = 2 * n + 2 + 2 := by ring
    simp only [reopenStep, open_fifo_nb, Finset.erase_singleton,
      insert_emptyc_eq, h3, e1, e2]

/-! ## Claim theorems -/

/-- Claim C1: once a dead alert has been emitted for an identifier (it is in
the dead-notified set), no checker cycle emits a further alert for it and it
stays in the set, for any sequence of subsequent cycles without a fresh
announcement; concretely, pid 42 touched at t = 0 with staleness threshold
1200, a cycle at t = 1300 whose probe reports not-found, and a cycle at
t = 1900, produce exactly the one alert [42]. -/
theorem dead_alert_dedup :
    (∀ (stale : Int) (wh : Bool) (envs : List CycleEnv) (s : WatchState)
       (pid : Int) (r : WatchState × List Int × List SlackLog),
       pid ∈ s.dead_notified →
       run_cycles stale wh envs (s, [], []) = some r →
       pid ∉ r.2.1 ∧ pid ∈ r.1.dead_notified) ∧
    run_cycles 1200 true
        [⟨1300, fun _ => ProbeResult.processLookupError, fun _ => some 200⟩,
         ⟨1900, fun _ => ProbeResult.processLookupError, fun _ => some 200⟩]
        (touch 0 42 WatchState.empty, [], []) =
      some (⟨[(42, 0)], {42}⟩, [42], [SlackLog.sent]) := by
  constructor
  · intro stale wh envs s pid r hd h
    exact run_cycles_dead_preserved stale wh pid envs s [] [] r hd
      (List.not_mem_nil pid) h
  · decide

/-- Witness for C1 at a concrete input. -/
theorem dead_alert_dedup_witness :
    (7 : Int) ∈ (WatchState.mk [(7, 0)] {7}).dead_notified ∧
    run_cycles 1200 true
        [⟨2000, fun _ => ProbeResult.processLookupError, fun _ => some 200⟩]
        (WatchState.mk [(7, 0)] {7}, [], []) =
      some (WatchState.mk [(7, 0)] {7}, [], []) ∧
    ((7 : Int) ∉ (WatchState.mk [(7, 0)] {7}, ([] : List Int),
        ([] : List SlackLog)).2.1 ∧
     (7 : Int) ∈ (WatchState.mk [(7, 0)] {7}).dead_notified) :=
  ⟨by decide, by decide,
   dead_alert_dedup.1 1200 true
     [⟨2000, fun _ => ProbeResult.processLookupError, fun _ => some 200⟩]
     (WatchState.mk [(7, 0)] {7}) 7 (WatchState.mk [(7, 0)] {7}, [], [])
     (by decide) (by decide)⟩

/-- Claim C2: a touch sets `last_seen[pid] = now` and removes the pid from
the dead-notified set, so afterwards `is_dead_notified pid` is false. -/
theorem touch_registers_and_rearms :
    ∀ (now pid : Int) (s : WatchState),
      lookupAssoc (touch now pid s).last_seen pid = some now ∧
      is_dead_notified (touch now pid s) pid = false := by
  intro now pid s
  refine ⟨lookupAssoc_updateAssoc_self s.last_seen pid now, ?_⟩
  simp [is_dead_notified, touch]

/-- Claim C3: after any finite sequence of touches starting from the empty
registry, lookup returns the `t` of the most recent touch per pid
(last-write-wins), and the registry size equals the number of distinct pids
ever touched. -/
theorem registry_last_write_wins :
    ∀ (tl : List (Int × Int)) (pid : Int),
      lookupAssoc (applyTouches tl WatchState.empty).last_seen pid =
        lastWriteWins tl pid ∧
      (applyTouches tl WatchState.empty).last_seen.length =
        (tl.map Prod.fst).dedup.length := by
  intro tl pid
  refine ⟨?_, length_applyTouches_empty tl⟩
  rw [lookup_applyTouches]
  cases hlw : lastWriteWins tl pid with
  | some t => rfl
  | none => rfl

/-- Claim C4 (counterexample): a probe outcome other than not-found or
permission-denied is NOT treated as alive — `pid_alive` does not catch it,
and a checker cycle hitting it aborts (returns no result) instead of
continuing. -/
theorem probe_other_outcome_crashes :
    ¬ (pid_alive ProbeResult.otherError = some true) ∧
    periodic_check_cycle 1200 1300 (fun _ => ProbeResult.otherError) true
        (fun _ => some 200) ⟨[(42, 0)], ∅⟩ = none :=
  ⟨by decide, by decide⟩

/-- Claim C4 (amended): the probe classifies a pid as dead exactly when the
OS existence check reports not-found; permission-denied and success are
classified alive; but any other probe outcome is an uncaught exception
(`pid_alive` yields no boolean) and aborts the checker cycle.  Consequently
every pid alerted by a completed cycle had a not-found probe. -/
theorem probe_classification :
    (∀ pr, pid_alive pr = some false ↔ pr = ProbeResult.processLookupError) ∧
    pid_alive ProbeResult.permissionError = some true ∧
    pid_alive ProbeResult.success = some true ∧
    pid_alive ProbeResult.otherError = none ∧
    (∀ (stale now : Int) (probe : Int → ProbeResult) (wh : Bool)
       (slack : Int → Option Nat) (s : WatchState)
       (r : WatchState × List Int × List SlackLog),
       periodic_check_cycle stale now probe wh slack s = some r →
       ∀ q ∈ r.2.1, probe q = ProbeResult.processLookupError) := by
  refine ⟨?_, rfl, rfl, rfl, ?_⟩
  · intro pr
    cases pr <;> simp [pid_alive]
  · intro stale now probe wh slack s r h q hq
    obtain ⟨-, -, -, new, h4, h5⟩ :=
      runCheck_facts stale now probe wh slack s.last_seen (s, [], []) r h
    have h4' : r.2.1 = new := by simpa using h4
    rw [h4'] at hq
    exact (h5 q hq).2.2.1

/-- Witness for the amended C4 at a concrete input. -/
theorem probe_classification_witness :
    periodic_check_cycle 1200 1300 (fun _ => ProbeResult.processLookupError)
        true (fun _ => some 200) ⟨[(42, 0)], ∅⟩ =
      some (⟨[(42, 0)], {42}⟩, [42], [SlackLog.sent]) ∧
    (42 : Int) ∈ [(42 : Int)] ∧
    (fun _ : Int => ProbeResult.processLookupError) 42 =
      ProbeResult.processLookupError :=
  ⟨by decide, by decide,
   probe_classification.2.2.2.2 1200 1300
     (fun _ => ProbeResult.processLookupError) true (fun _ => some 200)
     ⟨[(42, 0)], ∅⟩ (⟨[(42, 0)], {42}⟩, [42], [SlackLog.sent])
     (by decide) 42 (by decide)⟩

/-- Claim C5: the line assembler, fed "123\n45" then "6\n" from an empty
buffer, yields exactly the records "123" then "456", retaining "45" in the
buffer between feeds; "  77  \n" yields "77"; and in general a buffer with
no newline is retained unchanged, yielding no records. -/
theorem lineAssembler_roundtrip :
    ((feed 0 ([], WatchState.empty) ("123\n45".toList)).2.2 = ["123".toList] ∧
     (feed 0 ([], WatchState.empty) ("123\n45".toList)).1 = "45".toList ∧
     (feed 0 ("45".toList,
         (feed 0 ([], WatchState.empty) ("123\n45".toList)).2.1)
       ("6\n".toList)).2.2 = ["456".toList]) ∧
    (feed 0 ([], WatchState.empty) ("  77  \n".toList)).2.2 = ["77".toList] ∧
    ∀ (now : Int) (buf : List Char) (s : WatchState), '\n' ∉ buf →
      parse_lines now buf s = (buf, s, []) := by
  refine ⟨⟨by decide, by decide, by decide⟩, by decide, ?_⟩
  intro now buf s h
  exact parse_lines_eq_none now buf s (splitFirstNL_eq_none buf h)

/-- Witness for C5 at a concrete input. -/
theorem lineAssembler_roundtrip_witness :
    '\n' ∉ ("xyz".toList : List Char) ∧
    parse_lines 7 ("xyz".toList) WatchState.empty =
      ("xyz".toList, WatchState.empty, []) :=
  ⟨by decide,
   lineAssembler_roundtrip.2.2 7 ("xyz".toList) WatchState.empty (by decide)⟩

/-- Claim C6: a record is a valid announcement iff it parses as a positive
integer — a record parsing to a positive pid is stored with the current
time, a record that does not parse to a positive integer leaves the state
untouched, and a malformed record in the middle of the buffer does not stop
the processing of the records after it. -/
theorem record_validation :
    (∀ (now : Int) (line : List Char) (s : WatchState) (pid : Int),
       parsePyInt line = some pid → 0 < pid →
       lookupAssoc (processLine now line s).last_seen pid = some now) ∧
    (∀ (now : Int) (line : List Char) (s : WatchState),
       (∀ pid, parsePyInt line = some pid → pid ≤ 0) →
       processLine now line s = s) ∧
    (∀ (now : Int) (bad rest : List Char) (s : WatchState),
       '\n' ∉ bad → parsePyInt (strip bad) = none →
       parse_lines now (bad ++ '\n' :: rest) s =
         ((parse_lines now rest s).1, (parse_lines now rest s).2.1,
          strip bad :: (parse_lines now rest s).2.2)) := by
  refine ⟨?_, ?_, ?_⟩
  · intro now line s pid hp hpos
    have hne : line ≠ [] := by
      intro he
      rw [he] at hp
      simp [parsePyInt, parseDigits] at hp
    simp [processLine, hne, hp, hpos, touch, lookupAssoc_updateAssoc_self]
  · intro now line s h
    by_cases he : line = []
    · simp [processLine, he]
    · cases hp : parsePyInt line with
      | none => simp [processLine, he, hp]
      | some pid =>
        have hle := h pid hp
        have hnp : ¬ 0 < pid := by omega
        simp [processLine, he, hp, hnp]
  · intro now bad rest s hnl hbad
    have hsplit := splitFirstNL_append bad rest hnl
    have hproc : processLine now (strip bad) s = s := by
      by_cases he : strip bad = []
      · simp [processLine, he]
      · simp [processLine, he, hbad]
    rw [parse_lines_eq_cons now (bad ++ '\n' :: rest) bad rest s hsplit, hproc]

/-- Witness for C6 at concrete inputs. -/
theorem record_validation_witness :
    (parsePyInt ("8".toList) = some 8 ∧ (0 : Int) < 8 ∧
      lookupAssoc (processLine 5 ("8".toList) WatchState.empty).last_seen 8 =
        some 5) ∧
    ((∀ pid, parsePyInt ("-3".toList) = some pid → pid ≤ 0) ∧
      processLine 5 ("-3".toList) WatchState.empty = WatchState.empty) ∧
    ('\n' ∉ ("abc".toList : List Char) ∧
      parsePyInt (strip ("abc".toList)) = none ∧
      parse_lines 0 ("abc".toList ++ '\n' :: "9\n".toList) WatchState.empty =
        ((parse_lines 0 ("9\n".toList) WatchState.empty).1,
         (parse_lines 0 ("9\n".toList) WatchState.empty).2.1,
         strip ("abc".toList) ::
           (parse_lines 0 ("9\n".toList) WatchState.empty).2.2)) := by
  have hneg : ∀ pid, parsePyInt ("-3".toList) = some pid → pid ≤ 0 := by
    intro pid h
    have h3 : parsePyInt ("-3".toList) = some (-3) := by decide
    rw [h3] at h
    simp at h
    omega
  exact ⟨⟨by decide, by decide,
      record_validation.1 5 ("8".toList) WatchState.empty 8 (by decide) (by decide)⟩,
    ⟨hneg, record_validation.2.1 5 ("-3".toList) WatchState.empty hneg⟩,
    ⟨by decide, by decide,
      record_validation.2.2 0 ("abc".toList) ("9\n".toList) WatchState.empty
        (by decide) (by decide)⟩⟩

/-- Claim C7 (the code violates the one-write-descriptor invariant): after
`n` hangup/error reopens, exactly one read descriptor is open and exactly
one is registered (the read half of the claim holds), but `n + 1` write
descriptors are live — each reopen opens a second write descriptor via
`open_fifo_nb` and never closes it. -/
theorem channel_fd_counts (n : Nat) :
    (reopenStep^[n] initFdState).openRead.card = 1 ∧
    (reopenStep^[n] initFdState).registered.card = 1 ∧
    (reopenStep^[n] initFdState).openWrite.card = n + 1 := by
  rw [fd_iterate n]
  refine ⟨Finset.card_singleton _, Finset.card_singleton _, ?_⟩
  have hinj : Function.Injective (fun k : Nat => 2 * k + 1) := by
    intro a b hab
    have hab' : 2 * a + 1 = 2 * b + 1 := hab
    omega
  rw [Finset.card_image_of_injective _ hinj]
  exact Finset.card_range _

/-- Claim C8: a confirmed-dead pid is marked dead-notified regardless of the
webhook delivery outcome — the post-cycle state and alert list do not depend
on the delivery outcomes at all, every alerted pid is in the resulting
dead-notified set, and a delivery exception is absorbed by `send_slack`
(logged, not re-raised). -/
theorem alert_marked_regardless_of_delivery :
    (∀ (stale now : Int) (probe : Int → ProbeResult) (wh : Bool)
       (slack1 slack2 : Int → Option Nat) (s : WatchState),
       (periodic_check_cycle stale now probe wh slack1 s).map
           (fun r => (r.1, r.2.1)) =
       (periodic_check_cycle stale now probe wh slack2 s).map
           (fun r => (r.1, r.2.1))) ∧
    (∀ (stale now : Int) (probe : Int → ProbeResult) (wh : Bool)
       (slack : Int → Option Nat) (s : WatchState)
       (r : WatchState × List Int × List SlackLog),
       periodic_check_cycle stale now probe wh slack s = some r →
       ∀ q ∈ r.2.1, q ∈ r.1.dead_notified) ∧
    requests_post none = Except.error "exception" ∧
    send_slack true none = SlackLog.errorExn := by
  refine ⟨?_, ?_, rfl, rfl⟩
  · intro stale now probe wh slack1 slack2 s
    exact runCheck_slack_indep stale now probe wh slack1 slack2
      s.last_seen s [] [] []
  · intro stale now probe wh slack s r h q hq
    obtain ⟨-, -, -, new, h4, h5⟩ :=
      runCheck_facts stale now probe wh slack s.last_seen (s, [], []) r h
    have h4' : r.2.1 = new := by simpa using h4
    rw [h4'] at hq
    exact (h5 q hq).2.1

/-- Witness for C8 at a concrete input (delivery raises, pid still marked). -/
theorem alert_marked_regardless_of_delivery_witness :
    periodic_check_cycle 1200 1500 (fun _ => ProbeResult.processLookupError)
        true (fun _ => none) ⟨[(9, 0)], ∅⟩ =
      some (⟨[(9, 0)], {9}⟩, [9], [SlackLog.errorExn]) ∧
    (9 : Int) ∈ [(9 : Int)] ∧
    (9 : Int) ∈ (WatchState.mk [(9, 0)] {9}).dead_notified :=
  ⟨by decide, by decide,
   alert_marked_regardless_of_delivery.2.1 1200 1500
     (fun _ => ProbeResult.processLookupError) true (fun _ => none)
     ⟨[(9, 0)], ∅⟩ (⟨[(9, 0)], {9}⟩, [9], [SlackLog.errorExn])
     (by decide) 9 (by decide)⟩

/-- Claim C9: no registry entry is ever removed — a touch only grows the key
set, a checker cycle leaves `last_seen` exactly unchanged, and in the
concrete stale-but-alive scenario (pid 42 touched at 0, cycle at 1300 with
probe reporting existence) nothing changes and no alert is emitted. -/
theorem registry_never_shrinks :
    (∀ (now pid a : Int) (s : WatchState),
       a ∈ keys s.last_seen → a ∈ keys (touch now pid s).last_seen) ∧
    (∀ (stale now : Int) (probe : Int → ProbeResult) (wh : Bool)
       (slack : Int → Option Nat) (s : WatchState)
       (r : WatchState × List Int × List SlackLog),
       periodic_check_cycle stale now probe wh slack s = some r →
       r.1.last_seen = s.last_seen) ∧
    periodic_check_cycle 1200 1300 (fun _ => ProbeResult.success) true
        (fun _ => some 200) (touch 0 42 WatchState.empty) =
      some (touch 0 42 WatchState.empty, [], []) := by
  refine ⟨?_, ?_, by decide⟩
  · intro now pid a s h
    exact (mem_keys_touch now pid s a).2 (Or.inr h)
  · intro stale now probe wh slack s r h
    exact (runCheck_facts stale now probe wh slack s.last_seen
      (s, [], []) r h).1

/-- Witness for C9 at concrete inputs. -/
theorem registry_never_shrinks_witness :
    ((3 : Int) ∈ keys ((WatchState.mk [(3, 5)] ∅).last_seen) ∧
     (3 : Int) ∈ keys (touch 9 4 (WatchState.mk [(3, 5)] ∅)).last_seen) ∧
    (periodic_check_cycle 1200 2000 (fun _ => ProbeResult.success) true
        (fun _ => some 200) (WatchState.mk [(3, 5)] ∅) =
      some (WatchState.mk [(3, 5)] ∅, [], []) ∧
     (WatchState.mk [(3, 5)] ∅, ([] : List Int),
        ([] : List SlackLog)).1.last_seen =
       (WatchState.mk [(3, 5)] ∅).last_seen) :=
  ⟨⟨by decide, registry_never_shrinks.1 9 4 3 (WatchState.mk [(3, 5)] ∅)
      (by decide)⟩,
   by decide,
   registry_never_shrinks.2.1 1200 2000 (fun _ => ProbeResult.success) true
     (fun _ => some 200) (WatchState.mk [(3, 5)] ∅)
     (WatchState.mk [(3, 5)] ∅, [], []) (by decide)⟩

/-- Claim C10: the dead-notified set is always a subset of the registry's
key set — both a touch and a completed checker cycle preserve the
invariant. -/
theorem dead_set_subset_registry :
    (∀ (now pid : Int) (s : WatchState),
       deadSubsetKeys s → deadSubsetKeys (touch now pid s)) ∧
    (∀ (stale now : Int) (probe : Int → ProbeResult) (wh : Bool)
       (slack : Int → Option Nat) (s : WatchState)
       (r : WatchState × List Int × List SlackLog),
       periodic_check_cycle stale now probe wh slack s = some r →
       deadSubsetKeys s → deadSubsetKeys r.1) := by
  constructor
  · intro now pid s h q hq
    have hq' : q ∈ s.dead_notified := Finset.mem_of_mem_erase hq
    exact (mem_keys_touch now pid s q).2 (Or.inr (h q hq'))
  · intro stale now probe wh slack s r hc h q hq
    obtain ⟨h1, -, h3, -⟩ :=
      runCheck_facts stale now probe wh slack s.last_seen (s, [], []) r hc
    rw [show keys r.1.last_seen = keys s.last_seen from by rw [h1]]
    rcases h3 q hq with hm | hm
    · exact h q hm
    · exact hm

/-- Witness for C10 at concrete inputs. -/
theorem dead_set_subset_registry_witness :
    (deadSubsetKeys (WatchState.mk [(4, 0)] {4}) ∧
     deadSubsetKeys (touch 9 4 (WatchState.mk [(4, 0)] {4}))) ∧
    (periodic_check_cycle 1200 2000 (fun _ => ProbeResult.processLookupError)
        true (fun _ => some 200) (WatchState.mk [(4, 0)] ∅) =
      some (WatchState.mk [(4, 0)] {4}, [4], [SlackLog.sent]) ∧
     deadSubsetKeys (WatchState.mk [(4, 0)] ∅) ∧
     deadSubsetKeys (WatchState.mk [(4, 0)] {4})) :=
  ⟨⟨by unfold deadSubsetKeys; decide,
    dead_set_subset_registry.1 9 4 (WatchState.mk [(4, 0)] {4})
      (by unfold deadSubsetKeys; decide)⟩,
   by decide, by unfold deadSubsetKeys; decide,
   dead_set_subset_registry.2 1200 2000
     (fun _ => ProbeResult.processLookupError) true (fun _ => some 200)
     (WatchState.mk [(4, 0)] ∅) (WatchState.mk [(4, 0)] {4}, [4], [SlackLog.sent])
     (by decide) (by unfold deadSubsetKeys; decide)⟩

end PidWatch
